import Mathlib

/-!
# Verification of the CV-to-PDF rendering engine (`scripts/generate-cv-pdfs.mjs`)

A shallow embedding of the pure layout core of the CV document generator:
text measurement/wrapping/justification, date-range and "in progress"
labelling, the page-flow state machine with its sidebar background redraw,
hyperlink annotation attachment, biography ellipsis truncation, and the
entry-count slices.

Text is modelled as `List Char` (the code points of a JS string); glyph
measurement (`font.widthOfTextAtSize`) is an abstract `List Char → ℚ`
function, specialised to a per-character width sum where a claim needs the
additivity the real font metrics provide.  JS `number` arithmetic is
modelled by exact rationals.
-/

set_option maxHeartbeats 1000000

namespace CvPdf

/-! ## JS string primitives used by the engine -/

/-- The character list of a string literal (JS strings as `List Char`). -/
def str (s : String) : List Char := s.data

/-- JS helper `safeText` (line 11): `null`/`undefined` become `""`; strings pass
through unchanged (`String(value)` is the identity on strings). -/
def safeText (value : Option String) : String := value.getD ""

/-- JS `value.slice(0, n)` on a string. -/
def jsSlice (s : String) (n : ℕ) : String := ⟨s.data.take n⟩

/-- JS `value.trim()` on a character list: strip leading and trailing
whitespace. -/
def jsTrim (l : List Char) : List Char :=
  ((l.dropWhile Char.isWhitespace).reverse.dropWhile Char.isWhitespace).reverse

/-- JS `value.trimEnd()` on a character list. -/
def trimEndL (l : List Char) : List Char :=
  (l.reverse.dropWhile Char.isWhitespace).reverse

/-- Split at every single whitespace character (runs of `k` whitespace
characters produce `k - 1` empty pieces between the non-empty ones).
The accumulator list is always non-empty. -/
def splitEachWs (l : List Char) : List (List Char) :=
  l.foldr
    (fun c acc =>
      if c.isWhitespace then [] :: acc
      else
        match acc with
        | [] => [[c]]
        | a :: as => (c :: a) :: as)
    [[]]

/-- JS `s.split(/\s+/)`: split on runs of whitespace.  A leading or a
trailing run contributes one empty piece; interior runs contribute none. -/
def jsSplitWs (l : List Char) : List (List Char) :=
  match splitEachWs l with
  | [] => []
  | [p] => [p]
  | p :: ps => p :: ((ps.dropLast.filter (fun x => x ≠ [])) ++ [ps.getLastD []])

/-- JS `t.split(/\s+/).filter(Boolean)` (line 192): the word tokens of the
wrap input. -/
def wsTokens (l : List Char) : List (List Char) :=
  (jsSplitWs l).filter (fun x => x ≠ [])

/-- JS `Math.round` on an exact rational: round half toward `+∞`. -/
def jsRound (q : ℚ) : ℤ := ⌊q + 1 / 2⌋

/-! ## Text metrics & wrapping (`wrapText`, lines 189–206) -/

/-- The greedy token-accumulation loop of `wrapText` (lines 194–204):
`line` is the line currently being built; a token that does not fit on a
non-empty line flushes it and starts a new line with just that token. -/
def wrapLoop (width : List Char → ℚ) (maxWidth : ℚ) :
    List (List Char) → List Char → List (List Char)
  | [], line => if line = [] then [] else [line]
  | w :: ws, line =>
      if line = [] then
        wrapLoop width maxWidth ws w
      else if width (line ++ [' '] ++ w) > maxWidth then
        line :: wrapLoop width maxWidth ws w
      else
        wrapLoop width maxWidth ws (line ++ [' '] ++ w)

/-- The source `wrapText(text, maxWidth, size)` (lines 189–206), with the glyph
measurement `widthOf(·, size)` abstracted into `width`. -/
def wrapText (width : List Char → ℚ) (text : List Char) (maxWidth : ℚ) :
    List (List Char) :=
  let t := jsTrim text
  if t = [] then [] else wrapLoop width maxWidth (wsTokens t) []

/-- Per-character additive string width: the measurement model of a font
without kerning (the engine's Fira Code face is monospaced), with
per-character advance widths `cw`. -/
def widthL (cw : Char → ℚ) (l : List Char) : ℚ := (l.map cw).sum

/-! ## Justification (`justifyLine`, lines 208–219) -/

/-- The source `justifyLine(line, maxWidth, size, f)` (lines 208–219): lines of `≤ 1`
word are returned unchanged; otherwise the inter-word gap
`(maxWidth - totalWordWidth) / (words.length - 1)` is realised as
`max 1 (round(gap / widthOf(' ')))` repeated space characters between
consecutive words. -/
def justifyLine (width : List Char → ℚ) (line : List Char) (maxWidth : ℚ) :
    List Char :=
  match jsSplitWs line with
  | [] => line
  | [_] => line
  | w0 :: w1 :: ws =>
      let words := w0 :: w1 :: ws
      let totalWordWidth := (words.map width).sum
      let spaceWidth := (maxWidth - totalWordWidth) / ((words.length : ℚ) - 1)
      let spaces := max 1 (jsRound (spaceWidth / width [' ']))
      (w1 :: ws).foldl (fun acc w => acc ++ List.replicate spaces.toNat ' ' ++ w) w0

/-! ## Date ranges and the in-progress label (lines 31–48, 616–637) -/

/-- The source `yearRange(startDate, endDate)` (lines 31–37): both years present gives
`"start - end"`; no (or falsy) end date gives `"start - start"`; neither
gives `""`. -/
def yearRange (startDate endDate : Option String) : String :=
  let startYear := jsSlice (safeText startDate) 4
  let endYear :=
    match endDate with
    | none => ""
    | some e => if e = "" then "" else jsSlice e 4
  if startYear = "" && endYear = "" then ""
  else if endYear = "" then startYear ++ " - " ++ startYear
  else startYear ++ " - " ++ endYear

/-- Lexicographic code-unit comparison (JS `<` on strings). -/
def lexLt : List Char → List Char → Bool
  | [], [] => false
  | [], _ :: _ => true
  | _ :: _, [] => false
  | a :: as, b :: bs =>
      if a < b then true
      else if b < a then false
      else lexLt as bs

/-- JS `a < b` on strings. -/
def jsStrLt (a b : String) : Bool := lexLt a.data b.data

/-- The source `isInProgressRange(startDate, endDate)` (lines 39–48), with the
`new Date().toISOString().slice(0, 10)` render date made explicit as
`today`.  `today <= end` is `¬ (end < today)`. -/
def isInProgressRange (today : String) (startDate endDate : Option String) :
    Bool :=
  let start := jsSlice (safeText startDate) 10
  let e := jsSlice (safeText endDate) 10
  if start = "" then false
  else if jsStrLt today start then false
  else if e = "" then true
  else !(jsStrLt e today)

/-- The `i18nText` input values (line 22): absent, a plain string, or a
bilingual `{es, en}` object with possibly-absent keys. -/
inductive I18n where
  | absent : I18n
  | plain (s : String) : I18n
  | pair (es en : Option String) : I18n
deriving DecidableEq

/-- Key lookup `v?.[lang]` on a bilingual pair. -/
def i18nLookup (es en : Option String) (lang : String) : Option String :=
  if lang = "es" then es else if lang = "en" then en else none

/-- The source `i18nText(value, lang)` (lines 22–29): pick the active language's
value, falling back `es` → `en`; `??` skips only absent values, not empty
strings. -/
def i18nText (value : I18n) (lang : String) : String :=
  match value with
  | .absent => ""
  | .plain s => s
  | .pair es en => ((i18nLookup es en lang).orElse (fun _ => es)).orElse (fun _ => en) |>.getD ""

/-- The join `[...].filter(Boolean).join(' | ')`: the header-part join used by the
work and education loops (lines 596, 629). -/
def joinBar (parts : List String) : String :=
  String.intercalate " | " (parts.filter (fun p => p ≠ ""))

/-- The header line of one work-experience entry (lines 592–598):
`company | years`, with the year range used unconditionally. -/
def workHeader (name : Option String) (startDate endDate : Option String) :
    String :=
  let company := safeText name
  let years := yearRange startDate endDate
  joinBar [company, years]

/-- The localized in-progress label (line 621). -/
def inProgressLabel (lang : String) : String :=
  if lang = "en" then "In progress" else "En proceso"

/-- The header line of one education entry (lines 617–629):
`institution | (In progress … | years)`; the in-progress label replaces the
year range exactly when `isInProgressRange` holds. -/
def educationHeader (today lang : String) (institution startDate endDate : Option String) :
    String :=
  let inst := safeText institution
  let years := yearRange startDate endDate
  let inProgress := isInProgressRange today startDate endDate
  let label := if inProgress then inProgressLabel lang else ""
  joinBar [inst, if inProgress then label else years]

/-- One education entry (institution and dates; the bilingual `area` is
not part of the header). -/
structure EduEntry where
  institution : Option String
  startDate : Option String
  endDate : Option String
deriving DecidableEq

/-- The education header lines of a render pass at date `today` (the only
part of the document whose text depends on the render date). -/
def renderEducationHeaders (today lang : String) (entries : List EduEntry) :
    List String :=
  entries.map (fun e => educationHeader today lang e.institution e.startDate e.endDate)

/-! ## Page-flow state machine (lines 153–253, 470–505)

The engine keeps one mutable page handle and one shared vertical cursor
`y`; drawing primitives append operations to the current page.  `Op.rect`
and `Op.text` record the drawn geometry; the sidebar background is the
fixed full-height rectangle drawn by `drawSidebarBg` (lines 176–185). -/

/-- A drawing operation recorded on a page. -/
inductive Op where
  | rect (x y w h : ℚ) (sidebarColored : Bool) : Op
  | text (s : List Char) (x y size : ℚ) : Op
deriving DecidableEq

/-- One PDF page: its recorded drawing operations, in draw order. -/
structure Page where
  ops : List Op
deriving DecidableEq

/-- The engine's layout state: finished pages (in order), the current
page, and the shared vertical cursor `y`. -/
structure LayoutState where
  done : List Page
  cur : Page
  y : ℚ
deriving DecidableEq

/-- All produced pages, in order. -/
def LayoutState.pages (st : LayoutState) : List Page := st.done ++ [st.cur]

/-- Geometry constants (lines 123, 153–163). -/
def pageHeight : ℚ := 84189 / 100

def pageWidth : ℚ := 59528 / 100

def margin : ℚ := 48

def sidebarMargin : ℚ := 24

def sidebarWidth : ℚ := 175

def pageBottom : ℚ := margin

def mainX : ℚ := margin + sidebarWidth + 16

def sidebarFloor : ℚ := 20

def topY : ℚ := pageHeight - margin

/-- The sidebar's solid background rectangle (lines 176–184). -/
def sidebarBgOp : Op := Op.rect 0 0 sidebarWidth pageHeight true

/-- Append a drawing operation to the current page. -/
def drawOp (st : LayoutState) (op : Op) : LayoutState :=
  { st with cur := ⟨st.cur.ops ++ [op]⟩ }

/-- The call `pdfDoc.addPage(pageSize)`: the current page is finished and a fresh
empty page becomes current. -/
def addPage (st : LayoutState) : LayoutState :=
  { done := st.done ++ [st.cur], cur := ⟨[]⟩, y := st.y }

/-- The source `drawSidebarBg()` (lines 176–185). -/
def drawSidebarBg (st : LayoutState) : LayoutState := drawOp st sidebarBgOp

/-- The source `newPage()` (lines 221–226): allocate a page, reset `y` to the top
margin, and immediately redraw the sidebar background. -/
def newPage (st : LayoutState) : LayoutState :=
  drawSidebarBg { addPage st with y := topY }

/-- Lines 173–185: the first page, the initial cursor, and the first
sidebar background. -/
def initState : LayoutState :=
  drawSidebarBg { done := [], cur := ⟨[]⟩, y := topY }

/-- The source `ensureSpace(minSpace, isSidebar)` (lines 228–233): break the page
when fewer than `minSpace` points remain above the region's floor. -/
def ensureSpace (st : LayoutState) (minSpace : ℚ) (isSidebar : Bool) :
    LayoutState :=
  let bottom := if isSidebar then sidebarFloor else pageBottom
  if st.y - minSpace < bottom then newPage st else st

/-- The engine's one-line text primitive (`drawSidebarText` lines 235–242,
`drawMainText` lines 473–480, and the per-line bodies of the wrapped
drawers): empty text draws nothing; otherwise reserve `adv` points of
vertical space, draw at the (possibly page-broken) cursor, and advance the
cursor down by `adv`. -/
def drawTextLine (st : LayoutState) (t : List Char) (x size adv : ℚ)
    (isSidebar : Bool) : LayoutState :=
  if t = [] then st
  else
    let st1 := ensureSpace st adv isSidebar
    let st2 := drawOp st1 (Op.text t x st1.y size)
    { st2 with y := st2.y - adv }

/-- The engine's cursor/page command alphabet: explicit page breaks,
space reservations, one-line text draws, the bare `y -= d` spacing
adjustments, and the main-column cursor reset `y = pageHeight - margin`
(line 471) that hands the shared cursor from the sidebar to the main
column without a page break. -/
inductive Cmd where
  | newPageCmd : Cmd
  | ensure (minSpace : ℚ) (isSidebar : Bool) : Cmd
  | textLine (t : List Char) (x size adv : ℚ) (isSidebar : Bool) : Cmd
  | moveDown (d : ℚ) : Cmd
  | resetColumnTop : Cmd
deriving DecidableEq

/-- One engine step. -/
def runCmd (st : LayoutState) : Cmd → LayoutState
  | .newPageCmd => newPage st
  | .ensure m sb => ensureSpace st m sb
  | .textLine t x size adv sb => drawTextLine st t x size adv sb
  | .moveDown d => { st with y := st.y - d }
  | .resetColumnTop => { st with y := topY }

/-- Run a command sequence. -/
def run (st : LayoutState) (cs : List Cmd) : LayoutState := cs.foldl runCmd st

/-- The cursor positions of the text operations of a page, in draw
order. -/
def textYs (p : Page) : List ℚ :=
  p.ops.filterMap (fun op =>
    match op with
    | .text _ _ yPos _ => some yPos
    | .rect _ _ _ _ _ => none)

/-- A non-empty main-column text line (the shape of every command in the
pagination hypothesis of C5). -/
def isMainTextLine : Cmd → Prop
  | .textLine t _ _ _ sb => t ≠ [] ∧ sb = false
  | _ => False

instance : DecidablePred isMainTextLine := fun c => by
  cases c <;> simp only [isMainTextLine] <;> infer_instance

/-- The vertical space consumed by a command on a page without breaks. -/
def cmdAdvance : Cmd → ℚ
  | .textLine _ _ _ adv _ => adv
  | _ => 0

/-- A command of the engine's normal drawing repertoire: anything except
the sidebar→main cursor reset of line 471, with the non-negative advances
the engine's fixed sizes and spacings produce. -/
def cmdKeepsDescent : Cmd → Prop
  | .textLine _ _ _ adv _ => 0 ≤ adv
  | .moveDown d => 0 ≤ d
  | .resetColumnTop => False
  | _ => True

/-- The per-page descent invariant: on every page the recorded text
operations sit at non-increasing cursor heights, and the live cursor is
at or below the current page's last drawn text. -/
def descentInv (st : LayoutState) : Prop :=
  (∀ p ∈ st.done, List.Chain' (fun a b => a ≥ b) (textYs p)) ∧
  List.Chain' (fun a b => a ≥ b) (textYs st.cur) ∧
  (∀ v, (textYs st.cur).getLast? = some v → st.y ≤ v)

/-- Total vertical advance of a command sequence. -/
def totalAdvance (cs : List Cmd) : ℚ := (cs.map cmdAdvance).sum

/-- The vertical capacity of one page's main column. -/
def mainCapacity : ℚ := topY - pageBottom

/-! ## Hyperlink annotations (`addUrlLinkAnnotation`, lines 280–318) -/

/-- One link annotation: the bottom-left-origin rectangle
`[x, y, x + w, y + h]` and the URI of its action (the border is the
constant `[0, 0, 0]`). -/
structure Annot where
  rx : ℚ
  ry : ℚ
  rx2 : ℚ
  ry2 : ℚ
  uri : String
deriving DecidableEq

/-- A page's annotation state: `none` models a page node with no `Annots`
array yet. -/
structure PageNode where
  annots : Option (List Annot)
deriving DecidableEq

/-- The source `addUrlLinkAnnotation(targetPage, {x, y, width, height, url})`
(lines 280–318): a blank URL is a no-op; otherwise one link annotation is
appended to the page's annotation array, which is created on first use. -/
def addUrlLinkAnnot (pg : PageNode) (x y w h : ℚ) (url : Option String) :
    PageNode :=
  let u : String := ⟨jsTrim (safeText url).data⟩
  if u = "" then pg
  else
    let annot : Annot := ⟨x, y, x + w, y + h, u⟩
    let annots := pg.annots.getD []
    ⟨some (annots ++ [annot])⟩

/-! ## Biography ellipsis truncation (lines 381–409) -/

/-- The ellipsis characters. -/
def ellipsisL : List Char := str "..."

/-- The shortening loop (lines 395–397): drop characters from the end of
the last kept line until it is empty or fits together with `"..."`. -/
def shrinkLast (width : List Char → ℚ) (maxWidth : ℚ) : List Char → List Char
  | [] => []
  | c :: cs =>
      if width ((c :: cs) ++ ellipsisL) ≤ maxWidth then c :: cs
      else shrinkLast width maxWidth (trimEndL (c :: cs).dropLast)
termination_by l => l.length
decreasing_by
  simp only [trimEndL, List.length_reverse]
  calc ((c :: cs).dropLast.reverse.dropWhile Char.isWhitespace).length
      ≤ (c :: cs).dropLast.reverse.length :=
        (List.dropWhile_sublist Char.isWhitespace).length_le
    _ < (c :: cs).length := by
        simp [List.length_dropLast]

/-- Lines 392–398: the emitted last line when truncation is needed —
the shortened text, trailing whitespace removed, with `"..."` appended. -/
def truncatedLastLine (width : List Char → ℚ) (maxWidth : ℚ) (last : List Char) :
    List Char :=
  trimEndL (shrinkLast width maxWidth last) ++ ellipsisL

/-- Lines 388–399: the biography lines actually shown — the wrapped lines
capped at `maxLines`, with the last kept line ellipsis-truncated when the
wrap overflowed the cap. -/
def summaryShownLines (width : List Char → ℚ) (fullSummary : List Char)
    (maxWidth : ℚ) (maxLines : ℕ) : List (List Char) :=
  let lines := wrapText width fullSummary maxWidth
  let needsEllipsis := maxLines < lines.length
  let shown := lines.take maxLines
  if needsEllipsis ∧ shown ≠ [] then
    shown.dropLast ++ [truncatedLastLine width maxWidth (shown.getLastD [])]
  else shown

/-! ## Entry-count slices (lines 416–423, 645) -/

/-- The source `clampArray` (lines 80–82): a missing/non-array value is the empty
list. -/
def clampArray {α : Type} (arr : Option (List α)) : List α := arr.getD []

/-- One work entry, as consumed by the sidebar Roles loop. -/
structure WorkEntry where
  name : Option String
  position : I18n
  startDate : Option String
  endDate : Option String
deriving DecidableEq

/-- One project/training entry. -/
structure ProjectEntry where
  name : Option String
  description : I18n
  url : Option String
  github : Option String
deriving DecidableEq

/-- The training/course titles the document renders (line 645): the first
four projects, keeping those with a non-empty title. -/
def renderedProjectTitles (projects : Option (List ProjectEntry)) :
    List String :=
  ((clampArray projects).take 4).filterMap (fun p =>
    let title := safeText p.name
    if title = "" then none else some title)

/-- The sidebar Roles bullet texts (lines 416–423): the first three work
entries, keeping those with a non-empty localized position. -/
def sidebarRoleLines (lang : String) (work : Option (List WorkEntry)) :
    List String :=
  ((clampArray work).take 3).filterMap (fun w =>
    let role := i18nText w.position lang
    let company := safeText w.name
    if role = "" then none
    else some (role ++ (if company = "" then "" else " " ++ company)))

/-! ## Concrete width functions for witnesses and counterexamples -/

/-- A concrete measurement: every code point one unit wide (a monospaced
font at unit size). -/
def oneCW : Char → ℚ := fun _ => 1

/-- A concrete string measurement: the length of the string. -/
def lenWidth (l : List Char) : ℚ := l.length

/-! # Theorems -/

/-! ## C1 — wrapping bound -/

/-- Invariant of the greedy wrap loop: provided every pending token is in
`T` and the line under construction is empty, fits, or is itself a single
token, every emitted line fits within `maxWidth` or is a single token. -/
theorem wrapLoop_mem (width : List Char → ℚ) (maxWidth : ℚ)
    (T : List (List Char)) :
    ∀ (ws : List (List Char)) (line : List Char),
      (∀ w ∈ ws, w ∈ T) →
      (line = [] ∨ width line ≤ maxWidth ∨ line ∈ T) →
      ∀ l ∈ wrapLoop width maxWidth ws line, width l ≤ maxWidth ∨ l ∈ T := by
  intro ws
  induction ws with
  | nil =>
      intro line _ hline l hl
      by_cases h0 : line = []
      · simp [wrapLoop, h0] at hl
      · simp only [wrapLoop, if_neg h0, List.mem_singleton] at hl
        subst hl
        rcases hline with h | h | h
        · exact absurd h h0
        · exact Or.inl h
        · exact Or.inr h
  | cons w ws ih =>
      intro line hws hline l hl
      have hwT : w ∈ T := hws w (List.mem_cons_self w ws)
      have hws' : ∀ v ∈ ws, v ∈ T := fun v hv => hws v (List.mem_cons_of_mem w hv)
      by_cases h0 : line = []
      · simp only [wrapLoop, if_pos h0] at hl
        exact ih w hws' (Or.inr (Or.inr hwT)) l hl
      · by_cases hover : width (line ++ [' '] ++ w) > maxWidth
        · simp only [wrapLoop, if_neg h0, if_pos hover, List.mem_cons] at hl
          rcases hl with rfl | hl
          · rcases hline with h | h | h
            · exact absurd h h0
            · exact Or.inl h
            · exact Or.inr h
          · exact ih w hws' (Or.inr (Or.inr hwT)) l hl
        · simp only [wrapLoop, if_neg h0, if_neg hover] at hl
          exact ih (line ++ [' '] ++ w) hws'
            (Or.inr (Or.inl (le_of_not_lt hover))) l hl

/-- Claim C1.  Every line produced by `wrapText` either measures within
`maxWidth` or is a single input token (a whitespace-free word placed alone
on its line, which is the only kind of line allowed to overflow); empty or
whitespace-only input yields no lines at all. -/
theorem C1_wrap_width_bound (width : List Char → ℚ) (text : List Char)
    (maxWidth : ℚ) :
    (∀ l ∈ wrapText width text maxWidth,
        width l ≤ maxWidth ∨ l ∈ wsTokens (jsTrim text)) ∧
    (jsTrim text = [] → wrapText width text maxWidth = []) := by
  constructor
  · intro l hl
    by_cases ht : jsTrim text = []
    · simp [wrapText, ht] at hl
    · simp only [wrapText, if_neg ht] at hl
      exact wrapLoop_mem width maxWidth (wsTokens (jsTrim text))
        (wsTokens (jsTrim text)) [] (fun w hw => hw) (Or.inl rfl) l hl
  · intro ht
    simp [wrapText, ht]

/-- C1 at a concrete input: wrapping `"ab cd ef"` at width 5 with
unit-wide characters; the produced line `"ab cd"` fits. -/
theorem C1_witness :
    lenWidth (str "ab cd") ≤ 5 ∨ str "ab cd" ∈ wsTokens (jsTrim (str "ab cd ef")) :=
  (C1_wrap_width_bound lenWidth (str "ab cd ef") 5).1 (str "ab cd")
    (by norm_num +decide [wrapText, wrapLoop, wsTokens, jsSplitWs, splitEachWs,
          jsTrim, lenWidth, str, List.cons_ne_nil])

/-! ## C4 — `yearRange` -/

/-- A non-empty string still has a non-empty four-character prefix. -/
theorem jsSlice_ne_empty (s : String) (h : s ≠ "") (n : ℕ) (hn : 0 < n) :
    jsSlice s n ≠ "" := by
  rcases s with ⟨l⟩
  cases l with
  | nil => exact absurd rfl h
  | cons c cs =>
      cases n with
      | zero => exact absurd hn (by simp)
      | succ m =>
          simp only [jsSlice, List.take_succ_cons, ne_eq]
          intro hx
          have : (c :: cs.take m) = ([] : List Char) := congrArg String.data hx
          simp at this

/-- Claim C4 counterexample.  With a start date and no end date, `yearRange`
repeats the start year (`"2020 - 2020"`) instead of producing the single
start year `"2020"` the claim states. -/
theorem C4_counterexample :
    yearRange (some "2020-01-01") none = "2020 - 2020" ∧
    yearRange (some "2020-01-01") none ≠ "2020" := by decide

/-- Claim C4 (amended).  `yearRange` is empty-string-safe: both dates
present (and non-empty) give `"startYear - endYear"`; a start date with no
end date gives `"startYear - startYear"` (the start year repeated, not the
bare start year); neither date gives `""`. -/
theorem C4_yearRange_cases (s e : String) (hs : s ≠ "") (he : e ≠ "") :
    yearRange (some s) (some e) = jsSlice s 4 ++ " - " ++ jsSlice e 4 ∧
    yearRange (some s) none = jsSlice s 4 ++ " - " ++ jsSlice s 4 ∧
    yearRange none none = "" := by
  have hs4 := jsSlice_ne_empty s hs 4 (by norm_num)
  have he4 := jsSlice_ne_empty e he 4 (by norm_num)
  refine ⟨?_, ?_, by decide⟩
  · simp [yearRange, safeText, he, hs4, he4]
  · simp [yearRange, safeText, hs4]

/-- C4 at the claim's concrete input: `yearRange("2020-01-01",
"2022-06-01") = "2020 - 2022"`. -/
theorem C4_witness :
    yearRange (some "2020-01-01") (some "2022-06-01") = "2020" ++ " - " ++ "2022" ∧
    yearRange (some "2020-01-01") none = "2020" ++ " - " ++ "2020" ∧
    yearRange none none = "" := by
  have h := C4_yearRange_cases "2020-01-01" "2022-06-01" (by decide) (by decide)
  exact ⟨by rw [h.1]; decide, by rw [h.2.1]; decide, h.2.2⟩

/-! ## C3 — the in-progress label -/

/-- Claim C3 counterexample.  A work entry that satisfies the in-progress
condition (start in the past, no end date) is still rendered with the
year range `"Acme | 2021 - 2021"`: the work-section loop (lines 591–609)
never consults `isInProgressRange`, so no localized label appears. -/
theorem C3_counterexample :
    isInProgressRange "2025-10-12" (some "2021-01-01") none = true ∧
    workHeader (some "Acme") (some "2021-01-01") none = "Acme | 2021 - 2021" ∧
    workHeader (some "Acme") (some "2021-01-01") none ≠
      joinBar ["Acme", inProgressLabel "es"] ∧
    workHeader (some "Acme") (some "2021-01-01") none ≠
      joinBar ["Acme", inProgressLabel "en"] := by decide

/-- Claim C3 (amended).  Education entries (and only education entries)
whose start date is ≤ the render date and whose end date is absent or ≥
the render date are rendered with the localized in-progress label in
place of the year range; work entries always render the year range. -/
theorem C3_education_label (today lang : String)
    (inst name s e : Option String)
    (h : isInProgressRange today s e = true) :
    educationHeader today lang inst s e =
      joinBar [safeText inst, inProgressLabel lang] ∧
    workHeader name s e = joinBar [safeText name, yearRange s e] := by
  constructor
  · simp only [educationHeader, h, if_true, if_pos]
  · rfl

/-- C3 at the scenario's concrete input: `institution="Acme"`,
`start="2021-01-01"`, no end, render date inside the range → the header is
`"Acme | En proceso"`. -/
theorem C3_witness :
    educationHeader "2025-10-12" "es" (some "Acme") (some "2021-01-01") none =
      joinBar ["Acme", inProgressLabel "es"] ∧
    workHeader (some "Acme") (some "2021-01-01") none =
      joinBar ["Acme", yearRange (some "2021-01-01") none] := by
  have h := C3_education_label "2025-10-12" "es" (some "Acme") (some "Acme")
    (some "2021-01-01") none (by decide)
  exact ⟨by rw [h.1]; decide, h.2⟩

/-! ## C2 — justification bound -/

/-- The single space glyph measures its character width. -/
theorem widthL_space (cw : Char → ℚ) : widthL cw [' '] = cw ' ' := by
  simp [widthL]

/-- Per-character widths are additive over concatenation. -/
theorem widthL_append (cw : Char → ℚ) (a b : List Char) :
    widthL cw (a ++ b) = widthL cw a + widthL cw b := by
  simp [widthL]

/-- Width of the justified reconstruction: the word widths plus one
`k`-space gap per remaining word. -/
theorem widthL_justify_fold (cw : Char → ℚ) (k : ℕ) :
    ∀ (ws : List (List Char)) (w0 : List Char),
      widthL cw (ws.foldl (fun acc w => acc ++ List.replicate k ' ' ++ w) w0)
        = widthL cw w0 + (ws.map (widthL cw)).sum
            + (ws.length : ℚ) * ((k : ℚ) * cw ' ') := by
  intro ws
  induction ws with
  | nil => intro w0; simp
  | cons w ws ih =>
      intro w0
      rw [List.foldl_cons, ih]
      have hrep : widthL cw (List.replicate k ' ') = (k : ℚ) * cw ' ' := by
        simp [widthL, List.map_replicate, List.sum_replicate, nsmul_eq_mul]
      rw [widthL_append, widthL_append, hrep]
      simp only [List.length_cons, List.map_cons, List.sum_cons]
      push_cast
      ring

/-- Claim C2 counterexample.  The rounded space count is shared by all gaps,
so the rounding error accumulates: the non-last wrapped line
`"a a a a"` (four words) at `maxWidth = 8.5` with unit-wide glyphs is
justified to `"a  a  a  a"` of width `10`, which misses `maxWidth` by
`1.5` — more than one space-glyph width. -/
theorem C2_counterexample :
    wrapText (widthL oneCW) (str "a a a a b b b b") (17 / 2)
        = [str "a a a a", str "b b b b"] ∧
    (jsSplitWs (str "a a a a")).length = 4 ∧
    ¬ (|widthL oneCW (justifyLine (widthL oneCW) (str "a a a a") (17 / 2)) - 17 / 2|
        ≤ widthL oneCW [' ']) := by
  refine ⟨?_, by decide, ?_⟩
  · norm_num +decide [wrapText, wrapLoop, wsTokens, jsSplitWs, splitEachWs,
      jsTrim, widthL, oneCW, str, List.cons_ne_nil]
  · rw [show justifyLine (widthL oneCW) (str "a a a a") (17 / 2)
        = str "a  a  a  a" by
      norm_num +decide [justifyLine, jsSplitWs, splitEachWs, jsRound, widthL,
        oneCW, str, List.cons_ne_nil]]
    rw [widthL_space]
    norm_num +decide [widthL, oneCW, str, abs_of_nonneg]

/-- Claim C2 (amended).  For a justified line of `n ≥ 2` words that fits at
its natural single-space width (as every non-last wrapped line does), with
additive glyph widths and a positive space width, the reconstructed
line's total rendered width is within `(n - 1)/2` space-glyph widths of
`maxWidth` — half a space per gap, not one space overall. -/
theorem C2_justified_width_bound (cw : Char → ℚ) (line : List Char)
    (maxWidth : ℚ)
    (hsw : 0 < widthL cw [' '])
    (hwords : 2 ≤ (jsSplitWs line).length)
    (hfit : ((jsSplitWs line).map (widthL cw)).sum
        + (((jsSplitWs line).length : ℚ) - 1) * widthL cw [' '] ≤ maxWidth) :
    |widthL cw (justifyLine (widthL cw) line maxWidth) - maxWidth|
      ≤ (((jsSplitWs line).length : ℚ) - 1) * widthL cw [' '] / 2 := by
  rw [widthL_space] at hsw hfit ⊢
  rcases hsp : jsSplitWs line with _ | ⟨w0, _ | ⟨w1, ws⟩⟩
  · rw [hsp] at hwords; simp at hwords
  · rw [hsp] at hwords; simp at hwords
  · rw [hsp] at hfit
    simp only [justifyLine, hsp]
    rw [widthL_justify_fold]
    simp only [widthL_space]
    -- Abbreviations matching the source locals.
    set sw : ℚ := cw ' ' with hswdef
    set T : ℚ := ((w0 :: w1 :: ws).map (widthL cw)).sum with hT
    set n : ℕ := (w0 :: w1 :: ws).length with hn
    have hnws : ((w1 :: ws).length : ℚ) = (n : ℚ) - 1 := by
      simp [hn]
    have hm1 : (1 : ℚ) ≤ (n : ℚ) - 1 := by
      have : (2 : ℕ) ≤ n := by simp [hn]
      have h2 : (2 : ℚ) ≤ (n : ℚ) := by exact_mod_cast this
      linarith
    have hm0 : (0 : ℚ) < (n : ℚ) - 1 := by linarith
    set g : ℚ := (maxWidth - T) / ((n : ℚ) - 1) with hg
    have hfit' : T + ((n : ℚ) - 1) * sw ≤ maxWidth := hfit
    have hgsw : sw ≤ g := by
      rw [hg, le_div_iff₀ hm0]
      linarith
    set x : ℚ := g / sw with hx
    have hx1 : (1 : ℚ) ≤ x := by
      rw [hx, le_div_iff₀ hsw]
      linarith
    set r : ℤ := jsRound x with hr
    have hr1 : (1 : ℤ) ≤ r := by
      rw [hr, jsRound, Int.le_floor]
      push_cast
      linarith
    have hmax : max 1 r = r := max_eq_right hr1
    have hcast : ((max 1 r).toNat : ℚ) = (r : ℚ) := by
      rw [hmax]
      exact_mod_cast Int.toNat_of_nonneg (by linarith : (0:ℤ) ≤ r)
    have hfloorle : (r : ℚ) ≤ x + 1 / 2 := by
      rw [hr, jsRound]
      exact_mod_cast Int.floor_le (x + 1 / 2)
    have hfloorgt : x + 1 / 2 - 1 < (r : ℚ) := by
      rw [hr, jsRound]
      exact_mod_cast Int.sub_one_lt_floor (x + 1 / 2)
    have habs : |(r : ℚ) - x| ≤ 1 / 2 := by
      rw [abs_le]
      constructor <;> linarith
    have hgx : g = x * sw := by
      rw [hx, div_mul_cancel₀ _ (ne_of_gt hsw)]
    have hTsum : widthL cw w0 + ((w1 :: ws).map (widthL cw)).sum = T := by
      rw [hT]
      simp
    have hMT : maxWidth - T = ((n : ℚ) - 1) * g := by
      rw [hg, mul_div_cancel₀ _ (ne_of_gt hm0)]
    rw [hnws, hcast, hTsum]
    have hrew : T + ((n : ℚ) - 1) * ((r : ℚ) * sw) - maxWidth
        = ((n : ℚ) - 1) * sw * ((r : ℚ) - x) := by
      rw [eq_comm]
      calc ((n : ℚ) - 1) * sw * ((r : ℚ) - x)
          = ((n : ℚ) - 1) * ((r : ℚ) * sw) - ((n : ℚ) - 1) * (x * sw) := by ring
        _ = ((n : ℚ) - 1) * ((r : ℚ) * sw) - (maxWidth - T) := by
            rw [← hgx, ← hMT]
        _ = T + ((n : ℚ) - 1) * ((r : ℚ) * sw) - maxWidth := by ring
    rw [hrew, abs_mul, abs_of_pos (by positivity : (0:ℚ) < ((n : ℚ) - 1) * sw)]
    calc ((n : ℚ) - 1) * sw * |(r : ℚ) - x|
        ≤ ((n : ℚ) - 1) * sw * (1 / 2) := by
          exact mul_le_mul_of_nonneg_left habs (by positivity)
      _ = ((n : ℚ) - 1) * sw / 2 := by ring

/-- C2 (amended) at a concrete input: two unit-wide words justified into
`maxWidth = 5` reconstruct to exactly width 5, within `1/2` of the
bound. -/
theorem C2_witness :
    |widthL oneCW (justifyLine (widthL oneCW) (str "a a") 5) - 5|
      ≤ (((jsSplitWs (str "a a")).length : ℚ) - 1) * widthL oneCW [' '] / 2 :=
  C2_justified_width_bound oneCW (str "a a") 5
    (by norm_num [widthL, oneCW])
    (by decide)
    (by norm_num +decide [jsSplitWs, splitEachWs, widthL, oneCW, str,
      List.cons_ne_nil])

/-! ## C8 — hyperlink attachment -/

/-- Claim C8.  `addUrlLinkAnnotation` with a blank (empty or
whitespace-only) URL is a no-op leaving the page unchanged; with a
non-blank URL it appends exactly one link annotation carrying the
rectangle `[x, y, x+w, y+h]` and the trimmed URL, creating the annotation
array on first use and keeping every previously attached annotation in
place and unchanged. -/
theorem C8_attachLink (pg : PageNode) (x y w h : ℚ) (url : Option String) :
    ((⟨jsTrim (safeText url).data⟩ : String) = "" →
        addUrlLinkAnnot pg x y w h url = pg) ∧
    ((⟨jsTrim (safeText url).data⟩ : String) ≠ "" →
        (addUrlLinkAnnot pg x y w h url).annots =
          some (pg.annots.getD [] ++
            [⟨x, y, x + w, y + h, ⟨jsTrim (safeText url).data⟩⟩])) := by
  constructor
  · intro hu
    simp [addUrlLinkAnnot, hu]
  · intro hu
    simp [addUrlLinkAnnot, hu]

/-- C8 at concrete inputs: a whitespace-only URL leaves a page unchanged,
and a real URL is appended after an existing annotation. -/
theorem C8_witness :
    addUrlLinkAnnot ⟨some [⟨0, 0, 1, 1, "https://a.example"⟩]⟩ 2 3 4 5
        (some "  ") = ⟨some [⟨0, 0, 1, 1, "https://a.example"⟩]⟩ ∧
    (addUrlLinkAnnot ⟨some [⟨0, 0, 1, 1, "https://a.example"⟩]⟩ 2 3 4 5
        (some "https://b.example")).annots =
      some [⟨0, 0, 1, 1, "https://a.example"⟩,
            ⟨2, 3, 2 + 4, 3 + 5, "https://b.example"⟩] := by
  constructor
  · exact (C8_attachLink ⟨some [⟨0, 0, 1, 1, "https://a.example"⟩]⟩ 2 3 4 5
      (some "  ")).1 (by decide)
  · have := (C8_attachLink ⟨some [⟨0, 0, 1, 1, "https://a.example"⟩]⟩ 2 3 4 5
      (some "https://b.example")).2 (by decide)
    rw [this]
    norm_num +decide [safeText, jsTrim]

/-! ## C9 — biography ellipsis truncation -/

/-- Removing trailing whitespace yields a sublist. -/
theorem trimEndL_sublist (l : List Char) : List.Sublist (trimEndL l) l := by
  have h := (List.dropWhile_sublist (l := l.reverse) Char.isWhitespace).reverse
  simpa [trimEndL] using h

/-- Additive widths with non-negative character widths are monotone under
sublists. -/
theorem widthL_le_of_sublist (cw : Char → ℚ) (hcw : ∀ c, 0 ≤ cw c)
    {a b : List Char} (hs : List.Sublist a b) : widthL cw a ≤ widthL cw b := by
  refine List.Sublist.sum_le_sum (hs.map cw) ?_
  intro x hx
  rcases List.mem_map.mp hx with ⟨c, _, rfl⟩
  exact hcw c

/-- The shortening loop stops only on an empty remainder or on a line
that fits together with the ellipsis. -/
theorem shrinkLast_spec (width : List Char → ℚ) (m : ℚ) :
    ∀ l : List Char,
      shrinkLast width m l = [] ∨
        width (shrinkLast width m l ++ ellipsisL) ≤ m := by
  intro l
  generalize hfuel : l.length = N
  induction N using Nat.strong_induction_on generalizing l with
  | _ N ih =>
      cases l with
      | nil => left; simp [shrinkLast]
      | cons c cs =>
          by_cases h : width ((c :: cs) ++ ellipsisL) ≤ m
          · right
            rw [shrinkLast, if_pos h]
            exact h
          · rw [shrinkLast, if_neg h]
            refine ih (trimEndL (c :: cs).dropLast).length ?_ _ rfl
            subst hfuel
            calc (trimEndL (c :: cs).dropLast).length
                ≤ (c :: cs).dropLast.length :=
                  (trimEndL_sublist _).length_le
              _ < (c :: cs).length := by simp [List.length_dropLast]

/-- Claim C9.  For a biography whose wrapped line sequence exceeds the line
cap, the emitted sequence has exactly `maxLines` lines, and the last
emitted line — the shortened text with `"..."` appended — measures within
the column width (for any non-negative per-character glyph widths, and a
column wide enough for the ellipsis itself, as the engine's fixed
`maxWidth = 143`, `size = 8.5` box is). -/
theorem C9_ellipsis_truncation (cw : Char → ℚ) (fullSummary : List Char)
    (maxWidth : ℚ) (maxLines : ℕ)
    (hcw : ∀ c, 0 ≤ cw c)
    (hell : widthL cw ellipsisL ≤ maxWidth)
    (hpos : 0 < maxLines)
    (hover : maxLines < (wrapText (widthL cw) fullSummary maxWidth).length) :
    (summaryShownLines (widthL cw) fullSummary maxWidth maxLines).length
        = maxLines ∧
    widthL cw
        ((summaryShownLines (widthL cw) fullSummary maxWidth maxLines).getLastD [])
      ≤ maxWidth := by
  have hshownlen :
      ((wrapText (widthL cw) fullSummary maxWidth).take maxLines).length
        = maxLines := by
    rw [List.length_take]
    exact min_eq_left (le_of_lt hover)
  have hshownne :
      (wrapText (widthL cw) fullSummary maxWidth).take maxLines ≠ [] := by
    intro hnil
    rw [hnil] at hshownlen
    simp at hshownlen
    omega
  have hbranch :
      summaryShownLines (widthL cw) fullSummary maxWidth maxLines
        = ((wrapText (widthL cw) fullSummary maxWidth).take maxLines).dropLast
            ++ [truncatedLastLine (widthL cw) maxWidth
                (((wrapText (widthL cw) fullSummary maxWidth).take maxLines).getLastD [])] := by
    simp only [summaryShownLines]
    rw [if_pos ⟨hover, hshownne⟩]
  constructor
  · rw [hbranch]
    rw [List.length_append, List.length_dropLast, hshownlen]
    simp
    omega
  · rw [hbranch, List.getLastD_concat]
    set last := ((wrapText (widthL cw) fullSummary maxWidth).take maxLines).getLastD []
    rcases shrinkLast_spec (widthL cw) maxWidth last with hnil | hfits
    · rw [truncatedLastLine, hnil]
      simpa [trimEndL] using hell
    · rw [truncatedLastLine, widthL_append]
      calc widthL cw (trimEndL (shrinkLast (widthL cw) maxWidth last))
            + widthL cw ellipsisL
          ≤ widthL cw (shrinkLast (widthL cw) maxWidth last)
            + widthL cw ellipsisL := by
            have := widthL_le_of_sublist cw hcw
              (trimEndL_sublist (shrinkLast (widthL cw) maxWidth last))
            linarith
        _ = widthL cw (shrinkLast (widthL cw) maxWidth last ++ ellipsisL) :=
            (widthL_append cw _ _).symm
        _ ≤ maxWidth := hfits

/-- C9 at a concrete input: `"aaaa aaaa"` wraps to two lines at width 5;
with a one-line cap the emitted sequence is exactly one line, ending in
`"aa..."` of width 5. -/
theorem C9_witness :
    (summaryShownLines (widthL oneCW) (str "aaaa aaaa") 5 1).length = 1 ∧
    widthL oneCW
        ((summaryShownLines (widthL oneCW) (str "aaaa aaaa") 5 1).getLastD [])
      ≤ 5 :=
  C9_ellipsis_truncation oneCW (str "aaaa aaaa") 5 1
    (fun _ => by norm_num [oneCW])
    (by norm_num [widthL, oneCW, ellipsisL, str])
    (by decide)
    (by norm_num +decide [wrapText, wrapLoop, wsTokens, jsSplitWs, splitEachWs,
      jsTrim, widthL, oneCW, str, List.cons_ne_nil])

/-! ## C10 — entry-count slices -/

/-- Claim C10.  The rendered document contains at most four
training/project entries and the sidebar Roles list at most three work
entries, regardless of the input list lengths; entries beyond the slice
bound never influence the rendered lists. -/
theorem C10_entry_caps (lang : String)
    (projects : Option (List ProjectEntry)) (work : Option (List WorkEntry)) :
    (renderedProjectTitles projects).length ≤ 4 ∧
    (sidebarRoleLines lang work).length ≤ 3 ∧
    (∀ l : List ProjectEntry,
        renderedProjectTitles (some l) = renderedProjectTitles (some (l.take 4))) ∧
    (∀ l : List WorkEntry,
        sidebarRoleLines lang (some l) = sidebarRoleLines lang (some (l.take 3))) := by
  refine ⟨?_, ?_, ?_, ?_⟩
  · calc (renderedProjectTitles projects).length
        ≤ ((clampArray projects).take 4).length := List.length_filterMap_le _ _
      _ ≤ 4 := by simp [List.length_take]
  · calc (sidebarRoleLines lang work).length
        ≤ ((clampArray work).take 3).length := List.length_filterMap_le _ _
      _ ≤ 3 := by simp [List.length_take]
  · intro l
    simp [renderedProjectTitles, clampArray, List.take_take]
  · intro l
    simp [sidebarRoleLines, clampArray, List.take_take]

/-! ## C5 — sidebar background on every page, and pagination -/

/-- Unfolding of `ensureSpace` without the intermediate binding. -/
theorem ensureSpace_eq (st : LayoutState) (m : ℚ) (sb : Bool) :
    ensureSpace st m sb =
      if st.y - m < (if sb then sidebarFloor else pageBottom) then newPage st
      else st := rfl

/-- The background invariant: every produced page carries the sidebar
background rectangle. -/
theorem bgInv_newPage (st : LayoutState)
    (hdone : ∀ p ∈ st.done, sidebarBgOp ∈ p.ops)
    (hcur : sidebarBgOp ∈ st.cur.ops) :
    (∀ p ∈ (newPage st).done, sidebarBgOp ∈ p.ops) ∧
      sidebarBgOp ∈ (newPage st).cur.ops := by
  constructor
  · intro p hp
    simp only [newPage, drawSidebarBg, drawOp, addPage] at hp
    rcases List.mem_append.mp hp with h1 | h1
    · exact hdone p h1
    · rw [List.mem_singleton] at h1
      subst h1
      exact hcur
  · simp [newPage, drawSidebarBg, drawOp, addPage]

/-- One engine step preserves the background invariant. -/
theorem bgInv_runCmd (st : LayoutState) (c : Cmd)
    (hdone : ∀ p ∈ st.done, sidebarBgOp ∈ p.ops)
    (hcur : sidebarBgOp ∈ st.cur.ops) :
    (∀ p ∈ (runCmd st c).done, sidebarBgOp ∈ p.ops) ∧
      sidebarBgOp ∈ (runCmd st c).cur.ops := by
  have hens : ∀ m sb,
      (∀ p ∈ (ensureSpace st m sb).done, sidebarBgOp ∈ p.ops) ∧
        sidebarBgOp ∈ (ensureSpace st m sb).cur.ops := by
    intro m sb
    by_cases hb : st.y - m < (if sb then sidebarFloor else pageBottom)
    · rw [ensureSpace_eq, if_pos hb]
      exact bgInv_newPage st hdone hcur
    · rw [ensureSpace_eq, if_neg hb]
      exact ⟨hdone, hcur⟩
  cases c with
  | newPageCmd => exact bgInv_newPage st hdone hcur
  | ensure m sb => exact hens m sb
  | textLine t x size adv sb =>
      by_cases ht : t = []
      · simpa [runCmd, drawTextLine, ht] using ⟨hdone, hcur⟩
      · obtain ⟨hd1, hc1⟩ := hens adv sb
        constructor
        · intro p hp
          simp only [runCmd, drawTextLine, if_neg ht, drawOp] at hp
          exact hd1 p hp
        · simp only [runCmd, drawTextLine, if_neg ht, drawOp]
          exact List.mem_append_left _ hc1
  | moveDown d => exact ⟨hdone, hcur⟩
  | resetColumnTop => exact ⟨hdone, hcur⟩

/-- Running any command sequence preserves the background invariant. -/
theorem bgInv_run (cs : List Cmd) :
    ∀ st : LayoutState,
      (∀ p ∈ st.done, sidebarBgOp ∈ p.ops) →
      sidebarBgOp ∈ st.cur.ops →
      (∀ p ∈ (run st cs).done, sidebarBgOp ∈ p.ops) ∧
        sidebarBgOp ∈ (run st cs).cur.ops := by
  induction cs with
  | nil =>
      intro st hdone hcur
      exact ⟨hdone, hcur⟩
  | cons c cs ih =>
      intro st hdone hcur
      simp only [run, List.foldl_cons] at *
      obtain ⟨hd1, hc1⟩ := bgInv_runCmd st c hdone hcur
      exact ih (runCmd st c) hd1 hc1

/-- The finished-page count never decreases under one step. -/
theorem done_le_runCmd (st : LayoutState) (c : Cmd) :
    st.done.length ≤ (runCmd st c).done.length := by
  have hnp : st.done.length ≤ (newPage st).done.length := by
    simp [newPage, drawSidebarBg, drawOp, addPage]
  have hens : ∀ m sb, st.done.length ≤ (ensureSpace st m sb).done.length := by
    intro m sb
    by_cases hb : st.y - m < (if sb then sidebarFloor else pageBottom)
    · rw [ensureSpace_eq, if_pos hb]
      exact hnp
    · rw [ensureSpace_eq, if_neg hb]
  cases c with
  | newPageCmd => exact hnp
  | ensure m sb => exact hens m sb
  | textLine t x size adv sb =>
      by_cases ht : t = []
      · simp [runCmd, drawTextLine, ht]
      · simpa [runCmd, drawTextLine, if_neg ht, drawOp] using hens adv sb
  | moveDown d => exact le_refl _
  | resetColumnTop => exact le_refl _

/-- The finished-page count never decreases under a run. -/
theorem done_le_run (cs : List Cmd) :
    ∀ st : LayoutState, st.done.length ≤ (run st cs).done.length := by
  induction cs with
  | nil => intro st; exact le_refl _
  | cons c cs ih =>
      intro st
      simp only [run, List.foldl_cons] at *
      exact (done_le_runCmd st c).trans (ih (runCmd st c))

/-- A run of non-empty main-column text lines that never breaks the page
lowers the cursor by exactly the total advance and, if non-empty, leaves
the cursor at or above the main column's floor. -/
theorem run_main_nobreak (cs : List Cmd) :
    ∀ st : LayoutState,
      (∀ c ∈ cs, isMainTextLine c) →
      (run st cs).done.length = st.done.length →
      (run st cs).y = st.y - totalAdvance cs ∧
        (cs ≠ [] → pageBottom ≤ (run st cs).y) := by
  induction cs with
  | nil =>
      intro st _ _
      refine ⟨by simp [run, totalAdvance], fun h => absurd rfl h⟩
  | cons c cs ih =>
      intro st hc hlen
      have hmain := hc c (List.mem_cons_self c cs)
      cases c with
      | newPageCmd => exact absurd hmain (by simp [isMainTextLine])
      | ensure m sb => exact absurd hmain (by simp [isMainTextLine])
      | moveDown d => exact absurd hmain (by simp [isMainTextLine])
      | resetColumnTop => exact absurd hmain (by simp [isMainTextLine])
      | textLine t x size adv sb =>
          obtain ⟨ht, hsb⟩ := hmain
          subst hsb
          simp only [run, List.foldl_cons] at hlen ⊢
          by_cases hb : st.y - adv < pageBottom
          · exfalso
            have h1 : (runCmd st (Cmd.textLine t x size adv false)).done.length
                = st.done.length + 1 := by
              simp [runCmd, drawTextLine, if_neg ht, ensureSpace, hb, newPage,
                drawSidebarBg, drawOp, addPage]
            have h2 := done_le_run cs (runCmd st (Cmd.textLine t x size adv false))
            simp only [run] at h2
            omega
          · have hy1 : (runCmd st (Cmd.textLine t x size adv false)).y
                = st.y - adv := by
              simp [runCmd, drawTextLine, if_neg ht, ensureSpace, hb, drawOp]
            have hd1 : (runCmd st (Cmd.textLine t x size adv false)).done
                = st.done := by
              simp [runCmd, drawTextLine, if_neg ht, ensureSpace, hb, drawOp]
            have hlen' : (run (runCmd st (Cmd.textLine t x size adv false)) cs).done.length
                = (runCmd st (Cmd.textLine t x size adv false)).done.length := by
              simp only [run] at hlen ⊢
              rw [hlen, hd1]
            have hih := ih (runCmd st (Cmd.textLine t x size adv false))
              (fun d hd => hc d (List.mem_cons_of_mem _ hd)) hlen'
            have htot : totalAdvance (Cmd.textLine t x size adv false :: cs)
                = adv + totalAdvance cs := by
              simp [totalAdvance, cmdAdvance]
            constructor
            · simp only [run] at hih ⊢
              rw [hih.1, hy1, htot]
              ring
            · intro _
              by_cases hcs : cs = []
              · subst hcs
                simp only [run, List.foldl_nil]
                rw [hy1]
                linarith
              · have h2 := hih.2 hcs
                simpa only [run] using h2

/-- Claim C5.  The sidebar's solid background rectangle is present on every
produced page — the first page draws it at creation and `newPage()`
redraws it on every later page — and any sequence of non-empty
main-column text lines whose cumulative height exceeds one page's
main-column capacity forces at least a second page. -/
theorem C5_sidebar_bg_and_pagination (cs : List Cmd) :
    (∀ p ∈ (run initState cs).pages, sidebarBgOp ∈ p.ops) ∧
    ((∀ c ∈ cs, isMainTextLine c) → mainCapacity < totalAdvance cs →
      2 ≤ (run initState cs).pages.length) := by
  have hinitdone : ∀ p ∈ initState.done, sidebarBgOp ∈ p.ops := by
    intro p hp
    simp [initState, drawSidebarBg, drawOp] at hp
  have hinitcur : sidebarBgOp ∈ initState.cur.ops := by
    simp [initState, drawSidebarBg, drawOp]
  have hbg := bgInv_run cs initState hinitdone hinitcur
  constructor
  · intro p hp
    have hp2 : p ∈ (run initState cs).done ∨ p = (run initState cs).cur := by
      simpa [LayoutState.pages] using hp
    rcases hp2 with h1 | h1
    · exact hbg.1 p h1
    · subst h1
      exact hbg.2
  · intro hmain hcap
    by_contra hlt
    push_neg at hlt
    have hpages : (run initState cs).pages.length
        = (run initState cs).done.length + 1 := by
      simp [LayoutState.pages]
    have hinitd : initState.done.length = 0 := by
      simp [initState, drawSidebarBg, drawOp]
    have hnb := run_main_nobreak cs initState hmain (by omega)
    have hcsne : cs ≠ [] := by
      intro h
      subst h
      simp only [totalAdvance, List.map_nil, List.sum_nil] at hcap
      norm_num [mainCapacity, topY, pageHeight, margin, pageBottom] at hcap
    have hyb := hnb.2 hcsne
    have hiy : initState.y = topY := by
      simp [initState, drawSidebarBg, drawOp]
    rw [hnb.1, hiy] at hyb
    have : totalAdvance cs ≤ mainCapacity := by
      simp only [mainCapacity]
      linarith
    linarith

/-- C5 at a concrete input: six 140-point main-column lines (840 points,
beyond the 745.89-point capacity) produce a second page. -/
theorem C5_witness :
    2 ≤ (run initState
      (List.replicate 6 (Cmd.textLine (str "x") mainX 100 140 false))).pages.length :=
  (C5_sidebar_bg_and_pagination
      (List.replicate 6 (Cmd.textLine (str "x") mainX 100 140 false))).2
    (by
      intro c hcm
      rw [List.eq_of_mem_replicate hcm]
      exact ⟨by decide, rfl⟩)
    (by
      norm_num [totalAdvance, cmdAdvance, mainCapacity, topY, pageHeight,
        pageBottom, margin, List.map_replicate, List.sum_replicate,
        nsmul_eq_mul])

/-! ## C7 — cursor monotonicity within a page -/

/-- Claim C7 counterexample.  The engine's single shared cursor is reset to
the top margin at the sidebar→main handoff (line 471) without a page
break: after two sidebar lines and the reset, a main-column line is drawn
*above* the previous text on the same (only) page, so the per-page text
heights `[topY, topY − 14, topY]` are not non-increasing. -/
theorem C7_counterexample :
    (run initState
        [Cmd.textLine (str "a") sidebarMargin 10 14 true,
         Cmd.textLine (str "b") sidebarMargin 10 14 true,
         Cmd.resetColumnTop,
         Cmd.textLine (str "c") mainX 10 14 false]).done = [] ∧
    textYs (run initState
        [Cmd.textLine (str "a") sidebarMargin 10 14 true,
         Cmd.textLine (str "b") sidebarMargin 10 14 true,
         Cmd.resetColumnTop,
         Cmd.textLine (str "c") mainX 10 14 false]).cur
      = [topY, topY - 14, topY] ∧
    ¬ List.Chain' (fun a b => a ≥ b) (textYs (run initState
        [Cmd.textLine (str "a") sidebarMargin 10 14 true,
         Cmd.textLine (str "b") sidebarMargin 10 14 true,
         Cmd.resetColumnTop,
         Cmd.textLine (str "c") mainX 10 14 false]).cur) := by
  have hrun :
      run initState
        [Cmd.textLine (str "a") sidebarMargin 10 14 true,
         Cmd.textLine (str "b") sidebarMargin 10 14 true,
         Cmd.resetColumnTop,
         Cmd.textLine (str "c") mainX 10 14 false]
      = ⟨[], ⟨[sidebarBgOp,
          Op.text (str "a") sidebarMargin topY 10,
          Op.text (str "b") sidebarMargin (topY - 14) 10,
          Op.text (str "c") mainX topY 10]⟩, topY - 14⟩ := by
    norm_num +decide [run, runCmd, drawTextLine, ensureSpace, newPage, addPage,
      drawSidebarBg, drawOp, initState, topY, pageHeight, margin, sidebarFloor,
      pageBottom, str, List.cons_ne_nil]
  rw [hrun]
  refine ⟨rfl, ?_, ?_⟩
  · norm_num [textYs, sidebarBgOp, List.filterMap_cons, List.filterMap_nil]
  · norm_num [textYs, sidebarBgOp, List.filterMap_cons, List.filterMap_nil,
      List.chain'_cons, List.chain'_singleton, topY, pageHeight, margin]

/-- Preservation of the descent invariant by `newPage`. -/
theorem descentInv_newPage (st : LayoutState) (h : descentInv st) :
    descentInv (newPage st) := by
  obtain ⟨hdone, hcur, _⟩ := h
  refine ⟨?_, ?_, ?_⟩
  · intro p hp
    simp only [newPage, drawSidebarBg, drawOp, addPage] at hp
    rcases List.mem_append.mp hp with h1 | h1
    · exact hdone p h1
    · rw [List.mem_singleton] at h1
      subst h1
      exact hcur
  · simp [newPage, drawSidebarBg, drawOp, addPage, textYs, sidebarBgOp,
      List.filterMap_cons, List.filterMap_nil]
  · intro v hv
    simp [newPage, drawSidebarBg, drawOp, addPage, textYs, sidebarBgOp,
      List.filterMap_cons, List.filterMap_nil] at hv

/-- Preservation of the descent invariant by `ensureSpace`. -/
theorem descentInv_ensure (st : LayoutState) (m : ℚ) (sb : Bool)
    (h : descentInv st) : descentInv (ensureSpace st m sb) := by
  by_cases hb : st.y - m < (if sb then sidebarFloor else pageBottom)
  · rw [ensureSpace_eq, if_pos hb]
    exact descentInv_newPage st h
  · rw [ensureSpace_eq, if_neg hb]
    exact h

/-- Preservation of the descent invariant by a text line of non-negative
advance. -/
theorem descentInv_drawText (st : LayoutState) (t : List Char)
    (x size adv : ℚ) (sb : Bool) (hadv : 0 ≤ adv) (h : descentInv st) :
    descentInv (drawTextLine st t x size adv sb) := by
  by_cases ht : t = []
  · simpa [drawTextLine, ht] using h
  · obtain ⟨hdone, hcur, hlast⟩ := descentInv_ensure st adv sb h
    refine ⟨?_, ?_, ?_⟩
    · intro p hp
      simp only [drawTextLine, if_neg ht, drawOp] at hp
      exact hdone p hp
    · simp only [drawTextLine, if_neg ht, drawOp, textYs, List.filterMap_append]
      rw [List.chain'_append]
      refine ⟨hcur, by simp, ?_⟩
      intro a ha b hb
      simp only [List.filterMap_cons, List.filterMap_nil, List.head?_cons,
        Option.mem_def, Option.some.injEq] at hb
      subst hb
      exact hlast a (Option.mem_def.mp ha)
    · intro v hv
      simp only [drawTextLine, if_neg ht, drawOp, textYs,
        List.filterMap_append] at hv ⊢
      simp only [List.filterMap_cons, List.filterMap_nil] at hv
      rw [List.getLast?_concat] at hv
      have hveq : v = (ensureSpace st adv sb).y := by
        exact (Option.some.injEq _ _).mp hv.symm
      rw [hveq]
      linarith

/-- Preservation of the descent invariant by any command of the engine's
normal repertoire. -/
theorem descentInv_runCmd (st : LayoutState) (c : Cmd)
    (hc : cmdKeepsDescent c) (h : descentInv st) :
    descentInv (runCmd st c) := by
  cases c with
  | newPageCmd => exact descentInv_newPage st h
  | ensure m sb => exact descentInv_ensure st m sb h
  | textLine t x size adv sb => exact descentInv_drawText st t x size adv sb hc h
  | moveDown d =>
      obtain ⟨hdone, hcur, hlast⟩ := h
      refine ⟨hdone, hcur, ?_⟩
      intro v hv
      have hd : (0 : ℚ) ≤ d := hc
      have := hlast v hv
      simp only [runCmd]
      linarith
  | resetColumnTop => exact hc.elim

/-- Preservation of the descent invariant by a run. -/
theorem descentInv_run (cs : List Cmd) :
    ∀ st : LayoutState, (∀ c ∈ cs, cmdKeepsDescent c) → descentInv st →
      descentInv (run st cs) := by
  induction cs with
  | nil => intro st _ h; exact h
  | cons c cs ih =>
      intro st hc h
      simp only [run, List.foldl_cons] at *
      exact ih (runCmd st c)
        (fun d hd => hc d (List.mem_cons_of_mem _ hd))
        (descentInv_runCmd st c (hc c (List.mem_cons_self c cs)) h)

/-- Claim C7 (amended).  For runs of the engine's drawing repertoire —
page breaks, space reservations, text lines and downward spacing moves,
but *excluding* the one sidebar→main cursor reset of line 471 — the text
operations recorded on every single page sit at non-increasing cursor
positions, and a page break resets the (single, shared) cursor to the
page's top margin. -/
theorem C7_cursor_monotone (cs : List Cmd)
    (hc : ∀ c ∈ cs, cmdKeepsDescent c) :
    (∀ p ∈ (run initState cs).pages,
        List.Chain' (fun a b => a ≥ b) (textYs p)) ∧
    (∀ st : LayoutState, (newPage st).y = topY) := by
  have hinit : descentInv initState := by
    refine ⟨?_, ?_, ?_⟩
    · intro p hp
      simp [initState, drawSidebarBg, drawOp] at hp
    · simp [initState, drawSidebarBg, drawOp, textYs, sidebarBgOp]
    · intro v hv
      simp [initState, drawSidebarBg, drawOp, textYs, sidebarBgOp] at hv
  have h := descentInv_run cs initState hc hinit
  constructor
  · intro p hp
    have hp2 : p ∈ (run initState cs).done ∨ p = (run initState cs).cur := by
      simpa [LayoutState.pages] using hp
    rcases hp2 with h1 | h1
    · exact h.1 p h1
    · subst h1
      exact h.2.1
  · intro st
    rfl

/-- C7 (amended) at a concrete input: one main text line followed by a
spacing move keeps the only page's text heights non-increasing. -/
theorem C7_witness :
    List.Chain' (fun a b => a ≥ b)
      (textYs (run initState
        [Cmd.textLine (str "a") mainX 10 14 false, Cmd.moveDown 5]).cur) :=
  (C7_cursor_monotone
      [Cmd.textLine (str "a") mainX 10 14 false, Cmd.moveDown 5]
      (by
        intro c hcm
        rcases List.mem_cons.mp hcm with rfl | hcm2
        · exact (by norm_num : (0 : ℚ) ≤ 14)
        · rcases List.mem_cons.mp hcm2 with rfl | hcm3
          · exact (by norm_num : (0 : ℚ) ≤ 5)
          · cases hcm3)).1
    (run initState
      [Cmd.textLine (str "a") mainX 10 14 false, Cmd.moveDown 5]).cur
    (by simp [LayoutState.pages])

/-! ## C6 — determinism across runs -/

/-- Claim C6 counterexample.  The engine reads the wall clock
(`new Date()` in `isInProgressRange`, line 40): the same CV record
rendered on two different days produces different education headers —
`"UNIR | En proceso"` while the end date lies in the future, but
`"UNIR | 2021 - 2025"` once it has passed — so two runs over identical
inputs are not byte-identical unless they share the render date. -/
theorem C6_counterexample :
    renderEducationHeaders "2025-10-12" "es"
        [⟨some "UNIR", some "2021-01-01", some "2025-12-31"⟩] ≠
      renderEducationHeaders "2026-06-01" "es"
        [⟨some "UNIR", some "2021-01-01", some "2025-12-31"⟩] ∧
    renderEducationHeaders "2025-10-12" "es"
        [⟨some "UNIR", some "2021-01-01", some "2025-12-31"⟩] =
      ["UNIR | En proceso"] ∧
    renderEducationHeaders "2026-06-01" "es"
        [⟨some "UNIR", some "2021-01-01", some "2025-12-31"⟩] =
      ["UNIR | 2021 - 2025"] := by decide

/-- Claim C6 (amended).  Rendering is deterministic once the render date is
fixed along with the record, fonts and images: the render date enters the
output only through each entry's in-progress status, so two runs whose
dates assign every education entry the same status (in particular, two
runs on the same date) produce identical rendered header text. -/
theorem C6_deterministic_given_date (lang t1 t2 : String)
    (entries : List EduEntry)
    (h : ∀ en ∈ entries,
        isInProgressRange t1 en.startDate en.endDate =
          isInProgressRange t2 en.startDate en.endDate) :
    renderEducationHeaders t1 lang entries =
      renderEducationHeaders t2 lang entries := by
  unfold renderEducationHeaders
  refine List.map_congr_left ?_
  intro en hen
  simp only [educationHeader, h en hen]

/-- C6 at a concrete input: two renders on the same date agree. -/
theorem C6_witness :
    renderEducationHeaders "2025-10-12" "es"
        [⟨some "UNIR", some "2021-01-01", none⟩] =
      renderEducationHeaders "2025-10-12" "es"
        [⟨some "UNIR", some "2021-01-01", none⟩] :=
  C6_deterministic_given_date "es" "2025-10-12" "2025-10-12"
    [⟨some "UNIR", some "2021-01-01", none⟩] (fun _ _ => rfl)

end CvPdf
